import Mathlib

/-!
# Verification of the omniproxy intercept-capture-persist pipeline

Shallow embedding of the Go sources of `grokify/omniproxy` and proofs of
the specification claims about them.  Bytes are modelled as `Nat` values
(with `< 256` hypotheses where byte-width matters), Go strings as Lean
`String`/`List Char`, Go float64 ratio comparisons as exact `ℚ`
comparisons (all counts involved are bounded by the 512-byte sample, so
the double-precision comparisons in the source agree with the exact
rational ones), and Go maps as association lists.
-/

namespace Omniproxy

/-! ## Content classifier (`pkg/contentdetect`)

Embedding of `detectByHeuristic`, `isValidUTF8`, `looksLikeJSON` and
`isWhitespace` from the `contentdetect` package. -/

/-- Result of a detection, from `ContentInfo` in `contentdetect.go`
(confidence is modelled as an exact rational). -/
structure ContentInfo where
  isBinary : Bool
  isText : Bool
  mimeType : String := ""
  extension : String := ""
  method : String := ""
  confidence : ℚ := 0
  deriving Repr, DecidableEq

/-- Detection options, from `Options` in `contentdetect.go`. -/
structure Options where
  trustContentType : Bool
  highBitThreshold : ℚ
  checkBytes : Nat
  deriving Repr

/-- `DefaultOptions` from `contentdetect.go`. -/
def DefaultOptions : Options :=
  { trustContentType := true
    highBitThreshold := 30 / 100
    checkBytes := 512 }

/-- `isWhitespace` from the heuristic file: JSON whitespace bytes. -/
def isWhitespaceB (b : Nat) : Bool :=
  b = 32 || b = 9 || b = 10 || b = 13

/-- A continuation byte in the range `0x80..0xBF` (the `min`/`max`
bounds used by the source for every continuation position). -/
def isCont (b : Nat) : Bool := decide (0x80 ≤ b ∧ b ≤ 0xBF)

/-- The byte-sequence grammar that `isValidUTF8` turns out to accept,
phrased by lead-byte ranges: ASCII bytes; 2-byte sequences with lead
`0xC2..0xDF`; 3-byte sequences with lead `0xE0..0xEF`; 4-byte sequences
with lead `0xF0..0xF4`; continuation bytes always in `0x80..0xBF`.
Note that 3-byte and 4-byte overlong encodings (e.g. `E0 80 80`) and
UTF-16 surrogate encodings (`ED A0 80` etc.) are inside this grammar. -/
inductive AcceptedUTF8 : List Nat → Prop where
  | nil : AcceptedUTF8 []
  | ascii {b : Nat} {l : List Nat} : b ≤ 0x7F → AcceptedUTF8 l →
      AcceptedUTF8 (b :: l)
  | two {b c1 : Nat} {l : List Nat} : 0xC2 ≤ b → b ≤ 0xDF →
      isCont c1 = true → AcceptedUTF8 l → AcceptedUTF8 (b :: c1 :: l)
  | three {b c1 c2 : Nat} {l : List Nat} : 0xE0 ≤ b → b ≤ 0xEF →
      isCont c1 = true → isCont c2 = true → AcceptedUTF8 l →
      AcceptedUTF8 (b :: c1 :: c2 :: l)
  | four {b c1 c2 c3 : Nat} {l : List Nat} : 0xF0 ≤ b → b ≤ 0xF4 →
      isCont c1 = true → isCont c2 = true → isCont c3 = true →
      AcceptedUTF8 l → AcceptedUTF8 (b :: c1 :: c2 :: c3 :: l)

/-- The scanning loop of `isValidUTF8`, rendered as a state machine:
`pending` is the number of continuation bytes still owed by the current
multi-byte sequence.  With `pending = 0` the head byte is either ASCII
or a lead byte dispatched by the source's `switch`; with `pending > 0`
the head byte must be a continuation byte (the source's
`j = 1 .. size-1` loop).  Input ending with `pending > 0` is the
source's `i+size > len(data)` truncation rejection. -/
def utf8Check : List Nat → Nat → Bool
  | [], pending => pending = 0
  | b :: rest, 0 =>
    if b < 0x80 then utf8Check rest 0
    else if b &&& 0xE0 = 0xC0 then
      if b < 0xC2 then false else utf8Check rest 1
    else if b &&& 0xF0 = 0xE0 then utf8Check rest 2
    else if b &&& 0xF8 = 0xF0 then
      if b > 0xF4 then false else utf8Check rest 3
    else false
  | c :: rest, _k + 1 =>
    if 0x80 ≤ c ∧ c ≤ 0xBF then utf8Check rest _k else false

/-- `isValidUTF8` from the heuristic file: the by-byte UTF-8 validity
check, starting the scan outside any multi-byte sequence. -/
def isValidUTF8 (l : List Nat) : Bool := utf8Check l 0

/-- The bracket-balancing scan of `looksLikeJSON` (the loop from `j := i+1`
onwards), carried out with the current depth, in-string flag and
escaped flag. -/
def jsonScan (opening closing : Nat) : List Nat → Nat → Bool → Bool → Bool
  | [], depth, _, _ =>
    -- loop ended without a matching close: truncated-JSON acceptance
    decide (depth > 0 ∧ depth < 100)
  | b :: rest, depth, inString, escaped =>
    if escaped then
      jsonScan opening closing rest depth inString false
    else if b = 92 ∧ inString then
      jsonScan opening closing rest depth inString true
    else if b = 34 then
      jsonScan opening closing rest depth (!inString) escaped
    else if inString then
      jsonScan opening closing rest depth inString escaped
    else if b = opening then
      jsonScan opening closing rest (depth + 1) inString escaped
    else if b = closing then
      if depth = 1 then
        -- depth reaches 0: remaining bytes must all be whitespace
        rest.all isWhitespaceB
      else
        jsonScan opening closing rest (depth - 1) inString escaped
    else
      jsonScan opening closing rest depth inString escaped

/-- `looksLikeJSON` from the heuristic file. -/
def looksLikeJSON (data : List Nat) : Bool :=
  let rest := data.dropWhile isWhitespaceB
  match rest with
  | [] => false
  | b :: tail =>
    if b ≠ 123 ∧ b ≠ 91 then false
    else jsonScan b (if b = 91 then 93 else 125) tail 1 false false

/-- Byte category, mirroring the counting switch in `detectByHeuristic`. -/
inductive ByteCat where
  | null | control | whitespaceCat | printable | highBit
  deriving Repr, DecidableEq

/-- The per-byte classification switch of `detectByHeuristic`.  Tab,
newline and carriage return count as whitespace and printable; `0x7F`
is a control byte; bytes `≥ 0x80` are high-bit bytes. -/
def byteCat (b : Nat) : ByteCat :=
  if b = 0 then .null
  else if b < 0x09 then .control
  else if b = 0x09 ∨ b = 0x0A ∨ b = 0x0D then .whitespaceCat
  else if b < 0x20 then .control
  else if b < 0x7F then .printable
  else if b = 0x7F then .control
  else .highBit

/-- Number of null bytes in a sample. -/
def countNull (s : List Nat) : Nat := s.countP (fun b => byteCat b = .null)

/-- Number of control bytes in a sample. -/
def countControl (s : List Nat) : Nat := s.countP (fun b => byteCat b = .control)

/-- Number of high-bit bytes in a sample. -/
def countHighBit (s : List Nat) : Nat := s.countP (fun b => byteCat b = .highBit)

/-- Number of printable bytes (whitespace included, as in the source,
where tab/newline/carriage-return increment both counters). -/
def countPrintable (s : List Nat) : Nat :=
  s.countP (fun b => byteCat b = .printable ∨ b = 0x09 ∨ b = 0x0A ∨ b = 0x0D)

/-- `detectByHeuristic` from the `contentdetect` package, with float64
ratios embedded as exact rationals. -/
def detectByHeuristic (data : List Nat) (opts : Options) : ContentInfo :=
  if data.isEmpty then
    { isBinary := false, isText := true, method := "heuristic",
      confidence := 50 / 100 }
  else
    let checkLen := if opts.checkBytes > data.length then data.length
                    else opts.checkBytes
    let sample := data.take checkLen
    let nullBytes := countNull sample
    let controlBytes := countControl sample
    let highBitBytes := countHighBit sample
    let printableBytes := countPrintable sample
    let totalBytes := sample.length
    if nullBytes > 0 ∧ (nullBytes : ℚ) / (totalBytes : ℚ) > 1 / 100 then
      { isBinary := true, isText := false, method := "heuristic",
        confidence := 85 / 100 }
    else if (controlBytes : ℚ) / (totalBytes : ℚ) > 5 / 100 then
      { isBinary := true, isText := false, method := "heuristic",
        confidence := 80 / 100 }
    else if (highBitBytes : ℚ) / (totalBytes : ℚ) > opts.highBitThreshold then
      if isValidUTF8 sample then
        { isBinary := false, isText := true, mimeType := "text/plain",
          method := "heuristic", confidence := 70 / 100 }
      else
        { isBinary := true, isText := false, method := "heuristic",
          confidence := 75 / 100 }
    else if looksLikeJSON sample then
      { isBinary := false, isText := true, mimeType := "application/json",
        extension := "json", method := "heuristic", confidence := 75 / 100 }
    else if (printableBytes : ℚ) / (totalBytes : ℚ) > 85 / 100 then
      { isBinary := false, isText := true, mimeType := "text/plain",
        extension := "txt", method := "heuristic", confidence := 70 / 100 }
    else
      { isBinary := true, isText := false, method := "heuristic",
        confidence := 50 / 100 }

/-- A heuristic verdict: whether the sample was classified binary, and
with what confidence. -/
structure Verdict where
  isBinary : Bool
  confidence : ℚ
  deriving Repr, DecidableEq

/-- The heuristic rules as worded by the specification (claim C6):
over the first `min(len, 512)` bytes — empty input yields text 0.50;
null-byte ratio above 1% yields binary 0.85; control-byte ratio above
5% yields binary 0.80; high-bit ratio above 0.30 yields text 0.70 when
the sample is valid UTF-8 and binary 0.75 otherwise; a sample that
looks like JSON yields text 0.75; printable ratio above 0.85 yields
text 0.70; otherwise binary 0.50.  Ratio thresholds are phrased by
cross-multiplication of the byte counts. -/
def specHeuristicVerdict (data : List Nat) : Verdict :=
  if data = [] then ⟨false, 50 / 100⟩
  else
    let sample := data.take (min data.length 512)
    let total := sample.length
    if 100 * countNull sample > total then ⟨true, 85 / 100⟩
    else if 20 * countControl sample > total then ⟨true, 80 / 100⟩
    else if 10 * countHighBit sample > 3 * total then
      if isValidUTF8 sample then ⟨false, 70 / 100⟩ else ⟨true, 75 / 100⟩
    else if looksLikeJSON sample then ⟨false, 75 / 100⟩
    else if 20 * countPrintable sample > 17 * total then ⟨false, 70 / 100⟩
    else ⟨true, 50 / 100⟩

set_option maxRecDepth 2048

/-- For bytes, the mask test `b &&& 0xE0 = 0xC0` selects exactly the
range `0xC0..0xDF`. -/
theorem land_E0_iff : ∀ b : Nat, b < 256 →
    ((b &&& 0xE0 = 0xC0) ↔ (0xC0 ≤ b ∧ b ≤ 0xDF)) := by decide

/-- For bytes, the mask test `b &&& 0xF0 = 0xE0` selects exactly the
range `0xE0..0xEF`. -/
theorem land_F0_iff : ∀ b : Nat, b < 256 →
    ((b &&& 0xF0 = 0xE0) ↔ (0xE0 ≤ b ∧ b ≤ 0xEF)) := by decide

/-- For bytes, the mask test `b &&& 0xF8 = 0xF0` selects exactly the
range `0xF0..0xF7`. -/
theorem land_F8_iff : ∀ b : Nat, b < 256 →
    ((b &&& 0xF8 = 0xF0) ↔ (0xF0 ≤ b ∧ b ≤ 0xF7)) := by decide

/-- Soundness half: a byte string passing `utf8Check · 0` parses in the
grammar `AcceptedUTF8` (bounded induction on the length). -/
theorem accepted_of_utf8Check : ∀ (n : Nat) (l : List Nat), l.length ≤ n →
    (∀ b ∈ l, b < 256) → utf8Check l 0 = true → AcceptedUTF8 l := by
  intro n
  induction n with
  | zero =>
    intro l hlen
    match l with
    | [] => intro _ _; exact .nil
    | _ :: _ => simp at hlen
  | succ n ih =>
    intro l hlen
    match l with
    | [] => intro _ _; exact .nil
    | b :: rest =>
      intro hmem hc
      have hb : b < 256 := hmem b (List.mem_cons_self _ _)
      rw [utf8Check] at hc
      by_cases h7 : b < 0x80
      · rw [if_pos h7] at hc
        exact .ascii (by omega)
          (ih rest (by simp at hlen; omega)
            (fun x hx => hmem x (List.mem_cons_of_mem _ hx)) hc)
      · rw [if_neg h7] at hc
        by_cases hm2 : b &&& 0xE0 = 0xC0
        · rw [if_pos hm2] at hc
          have hr2 := (land_E0_iff b hb).1 hm2
          by_cases hlt : b < 0xC2
          · rw [if_pos hlt] at hc; exact absurd hc (by simp)
          · rw [if_neg hlt] at hc
            match rest with
            | [] => rw [utf8Check] at hc; exact absurd hc (by simp)
            | c1 :: rest2 =>
              rw [utf8Check] at hc
              by_cases hc1 : 0x80 ≤ c1 ∧ c1 ≤ 0xBF
              · rw [if_pos hc1] at hc
                exact .two (by omega) (by omega) (by simp [isCont, hc1.1, hc1.2])
                  (ih rest2 (by simp at hlen; omega)
                    (fun x hx => hmem x (by simp [hx])) hc)
              · rw [if_neg hc1] at hc; exact absurd hc (by simp)
        · rw [if_neg hm2] at hc
          by_cases hm3 : b &&& 0xF0 = 0xE0
          · rw [if_pos hm3] at hc
            have hr3 := (land_F0_iff b hb).1 hm3
            match rest with
            | [] => rw [utf8Check] at hc; exact absurd hc (by simp)
            | c1 :: rest2 =>
              rw [utf8Check] at hc
              by_cases hc1 : 0x80 ≤ c1 ∧ c1 ≤ 0xBF
              · rw [if_pos hc1] at hc
                match rest2 with
                | [] => rw [utf8Check] at hc; exact absurd hc (by simp)
                | c2 :: rest3 =>
                  rw [utf8Check] at hc
                  by_cases hc2 : 0x80 ≤ c2 ∧ c2 ≤ 0xBF
                  · rw [if_pos hc2] at hc
                    exact .three (by omega) (by omega)
                      (by simp [isCont, hc1.1, hc1.2]) (by simp [isCont, hc2.1, hc2.2])
                      (ih rest3 (by simp at hlen; omega)
                        (fun x hx => hmem x (by simp [hx])) hc)
                  · rw [if_neg hc2] at hc; exact absurd hc (by simp)
              · rw [if_neg hc1] at hc; exact absurd hc (by simp)
          · rw [if_neg hm3] at hc
            by_cases hm4 : b &&& 0xF8 = 0xF0
            · rw [if_pos hm4] at hc
              have hr4 := (land_F8_iff b hb).1 hm4
              by_cases hgt : b > 0xF4
              · rw [if_pos hgt] at hc; exact absurd hc (by simp)
              · rw [if_neg hgt] at hc
                match rest with
                | [] => rw [utf8Check] at hc; exact absurd hc (by simp)
                | c1 :: rest2 =>
                  rw [utf8Check] at hc
                  by_cases hc1 : 0x80 ≤ c1 ∧ c1 ≤ 0xBF
                  · rw [if_pos hc1] at hc
                    match rest2 with
                    | [] => rw [utf8Check] at hc; exact absurd hc (by simp)
                    | c2 :: rest3 =>
                      rw [utf8Check] at hc
                      by_cases hc2 : 0x80 ≤ c2 ∧ c2 ≤ 0xBF
                      · rw [if_pos hc2] at hc
                        match rest3 with
                        | [] => rw [utf8Check] at hc; exact absurd hc (by simp)
                        | c3 :: rest4 =>
                          rw [utf8Check] at hc
                          by_cases hc3 : 0x80 ≤ c3 ∧ c3 ≤ 0xBF
                          · rw [if_pos hc3] at hc
                            exact .four (by omega) (by omega)
                              (by simp [isCont, hc1.1, hc1.2])
                              (by simp [isCont, hc2.1, hc2.2])
                              (by simp [isCont, hc3.1, hc3.2])
                              (ih rest4 (by simp at hlen; omega)
                                (fun x hx => hmem x (by simp [hx])) hc)
                          · rw [if_neg hc3] at hc; exact absurd hc (by simp)
                      · rw [if_neg hc2] at hc; exact absurd hc (by simp)
                  · rw [if_neg hc1] at hc; exact absurd hc (by simp)
            · rw [if_neg hm4] at hc; exact absurd hc (by simp)

/-- Completeness half: every byte string in the grammar `AcceptedUTF8`
passes `utf8Check · 0`. -/
theorem utf8Check_of_accepted : ∀ l : List Nat, (∀ b ∈ l, b < 256) →
    AcceptedUTF8 l → utf8Check l 0 = true := by
  intro l hmem hacc
  induction hacc with
  | nil => rfl
  | ascii h7 _ ih =>
    rw [utf8Check, if_pos (by omega)]
    exact ih (fun x hx => hmem x (List.mem_cons_of_mem _ hx))
  | two hge hle hc1 _ ih =>
    rename_i b c1 l' _
    have hb : b < 256 := hmem b (List.mem_cons_self _ _)
    rw [utf8Check, if_neg (by omega), if_pos ((land_E0_iff b hb).2 ⟨by omega, hle⟩),
      if_neg (by omega), utf8Check, if_pos (by simpa [isCont] using hc1)]
    exact ih (fun x hx => hmem x (by simp [hx]))
  | three hge hle hc1 hc2 _ ih =>
    rename_i b c1 c2 l' _
    have hb : b < 256 := hmem b (List.mem_cons_self _ _)
    have hnm2 : ¬(b &&& 0xE0 = 0xC0) := fun hm =>
      absurd ((land_E0_iff b hb).1 hm) (by omega)
    rw [utf8Check, if_neg (by omega), if_neg hnm2,
      if_pos ((land_F0_iff b hb).2 ⟨hge, hle⟩),
      utf8Check, if_pos (by simpa [isCont] using hc1),
      utf8Check, if_pos (by simpa [isCont] using hc2)]
    exact ih (fun x hx => hmem x (by simp [hx]))
  | four hge hle hc1 hc2 hc3 _ ih =>
    rename_i b c1 c2 c3 l' _
    have hb : b < 256 := hmem b (List.mem_cons_self _ _)
    have hnm2 : ¬(b &&& 0xE0 = 0xC0) := fun hm =>
      absurd ((land_E0_iff b hb).1 hm) (by omega)
    have hnm3 : ¬(b &&& 0xF0 = 0xE0) := fun hm =>
      absurd ((land_F0_iff b hb).1 hm) (by omega)
    rw [utf8Check, if_neg (by omega), if_neg hnm2, if_neg hnm3,
      if_pos ((land_F8_iff b hb).2 ⟨hge, by omega⟩), if_neg (by omega),
      utf8Check, if_pos (by simpa [isCont] using hc1),
      utf8Check, if_pos (by simpa [isCont] using hc2),
      utf8Check, if_pos (by simpa [isCont] using hc3)]
    exact ih (fun x hx => hmem x (by simp [hx]))

/-- Comparing a count ratio against a rational threshold by
cross-multiplication. -/
theorem ratioGtIff (num t p q : Nat) (ht : 0 < t) (hq : 0 < q) :
    ((num : ℚ) / (t : ℚ) > (p : ℚ) / (q : ℚ)) ↔ q * num > p * t := by
  rw [gt_iff_lt, div_lt_div_iff₀ (by exact_mod_cast hq) (by exact_mod_cast ht)]
  rw [show ((p : ℚ) * t = ((p * t : Nat) : ℚ)) by push_cast; ring,
      show ((num : ℚ) * q = ((q * num : Nat) : ℚ)) by push_cast; ring,
      Nat.cast_lt]

/-- The null-byte rule's guard: positivity plus ratio above 1% is the
same as the cross-multiplied comparison. -/
theorem nullCondIff (num t : Nat) (ht : 0 < t) :
    (num > 0 ∧ (num : ℚ) / (t : ℚ) > 1 / 100) ↔ 100 * num > t := by
  have h := ratioGtIff num t 1 100 ht (by norm_num)
  simp only [gt_iff_lt] at h ⊢
  push_cast at h
  rw [h]
  omega

/-- Control-byte ratio above 5%, cross-multiplied. -/
theorem ctrlCondIff (num t : Nat) (ht : 0 < t) :
    ((num : ℚ) / (t : ℚ) > 5 / 100) ↔ 20 * num > t := by
  have h := ratioGtIff num t 5 100 ht (by norm_num)
  simp only [gt_iff_lt] at h ⊢
  push_cast at h
  rw [h]
  omega

/-- High-bit ratio above the default threshold 0.30, cross-multiplied. -/
theorem highCondIff (num t : Nat) (ht : 0 < t) :
    ((num : ℚ) / (t : ℚ) > 30 / 100) ↔ 10 * num > 3 * t := by
  have h := ratioGtIff num t 30 100 ht (by norm_num)
  simp only [gt_iff_lt] at h ⊢
  push_cast at h
  rw [h]
  omega

/-- Printable ratio above 0.85, cross-multiplied. -/
theorem printCondIff (num t : Nat) (ht : 0 < t) :
    ((num : ℚ) / (t : ℚ) > 85 / 100) ↔ 20 * num > 17 * t := by
  have h := ratioGtIff num t 85 100 ht (by norm_num)
  simp only [gt_iff_lt] at h ⊢
  push_cast at h
  rw [h]
  omega

/-- The binary/confidence verdict carried by a `ContentInfo`. -/
def verdictOf (i : ContentInfo) : Verdict := ⟨i.isBinary, i.confidence⟩

/-- The heuristic classifier with default options follows exactly the
rule list of the specification. -/
theorem detect_refines_spec (data : List Nat) :
    verdictOf (detectByHeuristic data DefaultOptions) =
      specHeuristicVerdict data := by
  by_cases hempty : data = []
  · subst hempty; rfl
  · have hne : data ≠ [] := hempty
    rw [detectByHeuristic, specHeuristicVerdict]
    rw [if_neg (by simpa using hne), if_neg hne]
    have hck : (if DefaultOptions.checkBytes > data.length then data.length
        else DefaultOptions.checkBytes) = min data.length 512 := by
      simp only [DefaultOptions]
      split <;> omega
    rw [hck]
    have ht : 0 < (data.take (min data.length 512)).length := by
      rw [List.length_take]
      have : 0 < data.length := List.length_pos.2 hne
      omega
    set sample := data.take (min data.length 512) with hsample
    set t := sample.length with htt
    by_cases h1 : 100 * countNull sample > t
    · rw [if_pos ((nullCondIff _ _ ht).2 h1), if_pos h1]; rfl
    · rw [if_neg (fun hc => h1 ((nullCondIff _ _ ht).1 hc)), if_neg h1]
      by_cases h2 : 20 * countControl sample > t
      · rw [if_pos ((ctrlCondIff _ _ ht).2 h2), if_pos h2]; rfl
      · rw [if_neg (fun hc => h2 ((ctrlCondIff _ _ ht).1 hc)), if_neg h2]
        have hthr : DefaultOptions.highBitThreshold = (30 : ℚ) / 100 := by
          simp [DefaultOptions]
        rw [hthr]
        by_cases h3 : 10 * countHighBit sample > 3 * t
        · rw [if_pos ((highCondIff _ _ ht).2 h3), if_pos h3]
          by_cases h3u : isValidUTF8 sample
          · rw [if_pos h3u, if_pos h3u]; rfl
          · rw [if_neg h3u, if_neg h3u]; rfl
        · rw [if_neg (fun hc => h3 ((highCondIff _ _ ht).1 hc)), if_neg h3]
          by_cases h4 : looksLikeJSON sample
          · rw [if_pos h4, if_pos h4]; rfl
          · rw [if_neg h4, if_neg h4]
            by_cases h5 : 20 * countPrintable sample > 17 * t
            · rw [if_pos ((printCondIff _ _ ht).2 h5), if_pos h5]; rfl
            · rw [if_neg (fun hc => h5 ((printCondIff _ _ ht).1 hc)),
                if_neg h5]
              rfl

/-! ## Capture engine (`pkg/capture`)

Embedding of `Record`, `Config`, `DefaultConfig`, `normalizeHeader`,
`filterHeaders`, `contains`, `isJSONContentType`, `parseBody`,
`StartCapture` and `FinishCapture`.  HTTP requests/responses are
modelled structurally; header names, header values, content types and
bodies are byte lists (Go strings are byte strings and the source
manipulates them byte-wise); `encoding/json.Unmarshal` (standard
library, external to the repository) is a parameter `jsonParse`, as is
the classifier `contentdetect.IsBinary` seen from this package
(`classify`).  Timing fields and the output writer are omitted: no
claim concerns them. -/

/-- The bytes of an ASCII string literal. -/
def bytes (s : String) : List Nat := s.data.map Char.toNat

/-- A JSON value, the decoded `interface{}` produced by a successful
`json.Unmarshal`. -/
inductive JsonValue where
  | null
  | bool (b : Bool)
  | num (q : ℚ)
  | str (s : String)
  | arr (xs : List JsonValue)
  | obj (fields : List (String × JsonValue))

/-- A captured body: either a decoded JSON structure or raw text
(`string(body)` in Go, kept as the byte list). -/
inductive CapturedBody where
  | parsed (v : JsonValue)
  | text (bs : List Nat)

/-- ASCII lower-casing of one byte (`normalizeHeader`'s loop body:
`c += 'a' - 'A'` for bytes in `A..Z`). -/
def asciiLowerByte (b : Nat) : Nat :=
  if 65 ≤ b ∧ b ≤ 90 then b + 32 else b

/-- `normalizeHeader` from `pkg/capture`: ASCII lower-case only. -/
def normalizeHeader (s : List Nat) : List Nat := s.map asciiLowerByte

/-- `contains` from `pkg/capture`: substring scan over all start
offsets, rendered as recursion on the haystack. -/
def goContains : List Nat → List Nat → Bool
  | s, sub =>
    if sub.isPrefixOf s then true
    else
      match s with
      | [] => false
      | _ :: s2 => goContains s2 sub

/-- `isJSONContentType` from `pkg/capture`.  Faithful to the source:
the whole test is guarded by `len(ct) >= 16`. -/
def isJSONContentType (ct : List Nat) : Bool :=
  ct.length ≥ 16 &&
    (decide (ct.take 16 = bytes "application/json") ||
      goContains ct (bytes "json"))

/-- `Config` from `pkg/capture` (output writer and format omitted;
`maxBodySize` is the Go `int64`). -/
structure CConfig where
  includeHeaders : Bool
  filterHeaders : List (List Nat)
  includeBody : Bool
  maxBodySize : Int
  skipBinary : Bool

/-- `DefaultConfig` from `pkg/capture`. -/
def DefaultConfig : CConfig :=
  { includeHeaders := true
    filterHeaders :=
      [bytes "authorization", bytes "cookie", bytes "set-cookie",
        bytes "x-api-key", bytes "x-auth-token",
        bytes "proxy-authorization"]
    includeBody := true
    maxBodySize := 1024 * 1024
    skipBinary := true }

/-- An incoming `*http.Request` as the capturer sees it: method, URL
parts, host, headers (name to value list, as in `http.Header`), decoded
query pairs, optional body bytes and the declared `ContentLength`. -/
structure HttpRequest where
  method : String
  urlString : String
  urlPath : String
  urlScheme : String
  host : String
  header : List (List Nat × List (List Nat))
  query : List (String × List String)
  body : Option (List Nat)
  contentLength : Int
  tls : Bool

/-- An `*http.Response` as `FinishCapture` sees it. -/
structure HttpResponse where
  statusCode : Int
  status : String
  header : List (List Nat × List (List Nat))
  body : Option (List Nat)
  contentLength : Int

/-- `RequestRecord` from `pkg/capture` (JSON-irrelevant zero values are
the Go zero values). -/
structure RequestRecord where
  method : String := ""
  url : String := ""
  host : String := ""
  path : String := ""
  scheme : String := ""
  headers : List (List Nat × List Nat) := []
  query : List (String × String) := []
  body : Option CapturedBody := none
  bodySize : Int := 0
  isBinary : Bool := false
  contentType : List Nat := []

/-- `ResponseRecord` from `pkg/capture`. -/
structure ResponseRecord where
  status : Int := 0
  statusText : String := ""
  headers : List (List Nat × List Nat) := []
  body : Option CapturedBody := none
  isBinary : Bool := false
  contentType : List Nat := []
  size : Int := 0

/-- `Record` from `pkg/capture` (timing fields omitted). -/
structure Record where
  request : RequestRecord := {}
  response : ResponseRecord := {}

/-- `http.Header.Get` for a case-insensitive header name lookup (the Go
method canonicalises the key; the capturer only ever asks for
`Content-Type`). -/
def headerGet (hs : List (List Nat × List (List Nat))) (name : List Nat) :
    List Nat :=
  match hs.find? (fun kv => normalizeHeader kv.1 = normalizeHeader name) with
  | some (_, v :: _) => v
  | _ => []

/-- `filterHeaders` from `pkg/capture`: lower-case every key, drop the
keys on the filter list, keep the first value of each survivor. -/
def filterHeaders (filterList : List (List Nat))
    (hs : List (List Nat × List (List Nat))) : List (List Nat × List Nat) :=
  hs.foldr
    (fun kv acc =>
      let kLower := normalizeHeader kv.1
      if filterList.any (fun f => normalizeHeader f = kLower) then acc
      else
        match kv.2 with
        | [] => acc
        | v :: _ => (kLower, v) :: acc)
    []

/-- The sentinel string `"[binary content]"` as bytes. -/
def binarySentinel : List Nat := bytes "[binary content]"

/-- The condition under which `parseBody` attempts `json.Unmarshal`:
content type passes `isJSONContentType`, or the body's first byte is
`{` or `[`. -/
def jsonParseAttempted (body : List Nat) (contentType : List Nat) : Bool :=
  isJSONContentType contentType ||
    (body.length > 0 && (body.headI = 123 || body.headI = 91))

/-- `parseBody` from `pkg/capture`, with the stdlib JSON parser as a
parameter: on a successful parse return the decoded value, otherwise
the body as a string. -/
def parseBody (jsonParse : List Nat → Option JsonValue)
    (body : List Nat) (contentType : List Nat) : CapturedBody :=
  if jsonParseAttempted body contentType then
    match jsonParse body with
    | some v => .parsed v
    | none => .text body
  else .text body

/-- The content-type hint `StartCapture` stores on the record (set only
when headers are captured and present, as in the source). -/
def startContentType (cfg : CConfig) (req : HttpRequest) : List Nat :=
  if cfg.includeHeaders ∧ req.header ≠ [] then
    headerGet req.header (bytes "Content-Type")
  else []

/-- `FinishCapture`'s content-type hint for the response. -/
def finishContentType (cfg : CConfig) (resp : HttpResponse) : List Nat :=
  if cfg.includeHeaders ∧ resp.header ≠ [] then
    headerGet resp.header (bytes "Content-Type")
  else []

/-- `StartCapture` from `pkg/capture`.  `classify` stands for
`contentdetect.IsBinary`; `jsonParse` for `json.Unmarshal`. -/
def StartCapture (classify : List Nat → List Nat → Bool)
    (jsonParse : List Nat → Option JsonValue)
    (cfg : CConfig) (req : HttpRequest) : Record :=
  let scheme :=
    if req.urlScheme = "" then (if req.tls then "https" else "http")
    else req.urlScheme
  let headers :=
    if cfg.includeHeaders ∧ req.header ≠ [] then
      filterHeaders cfg.filterHeaders req.header
    else []
  let contentType := startContentType cfg req
  let query :=
    if req.query ≠ [] then
      req.query.foldr
        (fun kv acc =>
          match kv.2 with
          | [] => acc
          | v :: _ => (kv.1, v) :: acc)
        []
    else []
  let base : RequestRecord :=
    { method := req.method, url := req.urlString, host := req.host,
      path := req.urlPath, scheme := scheme, headers := headers,
      query := query, contentType := contentType }
  let withBody :=
    if cfg.includeBody ∧ req.body.isSome ∧ req.contentLength > 0 ∧
        req.contentLength ≤ cfg.maxBodySize then
      let bodyRead := (req.body.getD []).take cfg.maxBodySize.toNat
      if bodyRead.length > 0 then
        if cfg.skipBinary ∧ classify contentType bodyRead then
          { base with
            bodySize := (bodyRead.length : Int)
            isBinary := true
            body := some (.text binarySentinel) }
        else
          { base with
            bodySize := (bodyRead.length : Int)
            body := some (parseBody jsonParse bodyRead contentType) }
      else base
    else base
  { request := withBody }

/-- `FinishCapture` from `pkg/capture`, restricted to building the
response part of the record (the handler fan-out and output writing are
side effects outside the data model). -/
def FinishCapture (classify : List Nat → List Nat → Bool)
    (jsonParse : List Nat → Option JsonValue)
    (cfg : CConfig) (rec : Record) (resp : HttpResponse) : Record :=
  let headers :=
    if cfg.includeHeaders ∧ resp.header ≠ [] then
      filterHeaders cfg.filterHeaders resp.header
    else []
  let contentType := finishContentType cfg resp
  let base : ResponseRecord :=
    { status := resp.statusCode, statusText := resp.status,
      headers := headers, contentType := contentType }
  let withBody :=
    if cfg.includeBody ∧ resp.body.isSome ∧
        resp.contentLength ≤ cfg.maxBodySize then
      let bodyRead := (resp.body.getD []).take cfg.maxBodySize.toNat
      if bodyRead.length > 0 then
        if cfg.skipBinary ∧ classify contentType bodyRead then
          { base with
            size := (bodyRead.length : Int)
            isBinary := true
            body := some (.text binarySentinel) }
        else
          { base with
            size := (bodyRead.length : Int)
            body := some (parseBody jsonParse bodyRead contentType) }
      else base
    else base
  { rec with response := withBody }

/-! ## Async store wrapper and sampling store (`pkg/backend`)

Embedding of the state manipulated by `AsyncTrafficStoreWrapper.Store`
and `Close`, the sampling store's `matchHost`, and the proxy engine's
`matchWildcard` (skip-host rule).  Records are opaque identifiers; the
bounded channel is the queue list (capacity `queueSize`); `stopped`
mirrors the guarded flag; `stopChanClosed` tracks whether `stopChan`
has been closed (closing a closed Go channel panics). -/

/-- Wrapper state touched by `Store`/`Close` of
`AsyncTrafficStoreWrapper`. -/
structure AsyncState where
  queue : List Nat
  queueSize : Nat
  stopped : Bool
  stopChanClosed : Bool
  storeErrors : Nat
  deriving Repr, DecidableEq

/-- A freshly constructed wrapper (`NewAsyncTrafficStore`): empty
bounded channel of the configured capacity, not stopped. -/
def initAsyncState (queueSize : Nat) : AsyncState :=
  { queue := [], queueSize := queueSize, stopped := false,
    stopChanClosed := false, storeErrors := 0 }

/-- `AsyncTrafficStoreWrapper.Store`: under the read lock, a stopped
wrapper returns `nil` at once; otherwise a non-blocking channel send
either enqueues (channel has room) or hits the `default` branch, which
drops the record and bumps the store-error metric.  The returned value
is the Go `error` result (always `nil` = `none`). -/
def asyncStore (s : AsyncState) (rec : Nat) : AsyncState × Option String :=
  if s.stopped then (s, none)
  else if s.queue.length < s.queueSize then
    ({ s with queue := s.queue ++ [rec] }, none)
  else
    ({ s with storeErrors := s.storeErrors + 1 }, none)

/-- `AsyncTrafficStoreWrapper.Close`: set `stopped`, then
`close(stopChan)`.  Closing an already-closed channel panics, modelled
as `none`. -/
def asyncClose (s : AsyncState) : Option AsyncState :=
  let s1 := { s with stopped := true }
  if s1.stopChanClosed then none
  else some { s1 with stopChanClosed := true }

/-- `n` successive `Store` calls with no consumer running. -/
def asyncStoreN : Nat → AsyncState → AsyncState
  | 0, s => s
  | n + 1, s => asyncStoreN n (asyncStore s 0).1

/-- `matchHost` from `pkg/backend` (sampling store): a pattern starting
with `*` strips the star and one following dot, then tests that the
host ends with the remainder via an explicit length/slice check; other
patterns must match exactly. -/
def backendMatchHost (host pattern : List Char) : Bool :=
  match pattern with
  | [] => false
  | p0 :: prest =>
    if p0 = '*' then
      let suffix :=
        match prest with
        | '.' :: srest => srest
        | _ => prest
      decide (host.length ≥ suffix.length) &&
        decide (host.drop (host.length - suffix.length) = suffix)
    else decide (host = pattern)

/-- `matchWildcard` from the proxy engine (skip-host rule): a pattern
starting with `*` keeps everything after the star — the dot included —
as the required suffix. -/
def matchWildcard (pattern host : List Char) : Bool :=
  match pattern with
  | [] => false
  | p0 :: suffix =>
    if p0 = '*' then
      decide (host.length ≥ suffix.length) &&
        decide (host.drop (host.length - suffix.length) = suffix)
    else decide (pattern = host)

/-! ## Filter (`pkg/capture/filter.go`)

Embedding of `wildcardToRegexp`, `matchHost` and `matchMethod`.  The
compiled `*regexp.Regexp` is modelled denotationally: since the
translation escapes every metacharacter and only emits `.` and `.*`,
the compiled regex's language is exactly the wildcard language, so
`MatchString` is modelled by `rxMatch` over the token list produced by
`compileWildcard`. -/

/-- The regex metacharacters escaped by `wildcardToRegexp`'s switch
(every Go regexp metacharacter other than the translated `*`/`?`). -/
def regexMetaChars : List Char :=
  ['.', '+', '^', '$', '[', ']', '(', ')',
    Char.ofNat 123, Char.ofNat 125, '|', Char.ofNat 92]

/-- The per-character emission of `wildcardToRegexp`'s switch: `*`
emits `.*`, `?` emits `.`, a metacharacter is emitted with a leading
backslash, anything else verbatim. -/
def wildcardEscape (c : Char) : List Char :=
  if c = '*' then ['.', '*']
  else if c = '?' then ['.']
  else if c ∈ regexMetaChars then [Char.ofNat 92, c]
  else [c]

/-- `wildcardToRegexp` from `filter.go`: the string-builder loop that
starts from `^`, appends each character's emission, and closes with
`$`. -/
def wildcardToRegexp (pattern : List Char) : List Char :=
  (pattern.foldl (fun acc c => acc ++ wildcardEscape c) ['^']) ++ ['$']

/-- The regex translation as worded by the specification (claim C8): an
anchored `^…$` regex in which `?` becomes `.`, `*` becomes `.*`, and
every other regex metacharacter is escaped to match literally. -/
def specWildcardRegexp (pattern : List Char) : List Char :=
  ['^'] ++
    (pattern.flatMap fun c =>
      if c = '?' then ['.']
      else if c = '*' then ['.', '*']
      else if c ∈ regexMetaChars then [Char.ofNat 92, c]
      else [c]) ++
  ['$']

/-- A token of a compiled wildcard pattern: a literal character (the
escaped regex characters match literally), `.` or `.*`. -/
inductive WTok where
  | lit (c : Char)
  | anyOne
  | anyRun
  deriving Repr, DecidableEq

/-- The compiled form of a wildcard pattern, token by token. -/
def compileWildcard (p : List Char) : List WTok :=
  p.map fun c =>
    if c = '*' then .anyRun else if c = '?' then .anyOne else .lit c

/-- Matching of a compiled (anchored) wildcard pattern against an
input: literals and `.` consume one character, `.*` matches when the
rest of the pattern matches some suffix of the input.  This is the
language of the anchored regex `wildcardToRegexp` produces. -/
def rxMatch : List WTok → List Char → Bool
  | [], xs => xs.isEmpty
  | .lit c :: ts, xs =>
    match xs with
    | [] => false
    | x :: xs2 => decide (c = x) && rxMatch ts xs2
  | .anyOne :: ts, xs =>
    match xs with
    | [] => false
    | _ :: xs2 => rxMatch ts xs2
  | .anyRun :: ts, xs => xs.tails.any fun s => rxMatch ts s

/-- `Filter.matchHost` from `filter.go` (and, with the same code shape,
`matchPath`): a non-empty include list requires at least one match,
then any exclude match rejects. -/
def filterMatchHost (incl excl : List (List WTok)) (host : List Char) : Bool :=
  if incl.length > 0 && !(incl.any fun p => rxMatch p host) then false
  else !(excl.any fun p => rxMatch p host)

/-- ASCII upper-casing of one byte (modelling `strings.ToUpper` on
HTTP method strings, which are ASCII). -/
def asciiUpperByte (b : Nat) : Nat :=
  if 97 ≤ b ∧ b ≤ 122 then b - 32 else b

/-- `strings.ToUpper` on a method string, byte-wise. -/
def asciiUpper (s : List Nat) : List Nat := s.map asciiUpperByte

/-- `Filter.matchMethod` from `filter.go`: both the probe and every
listed method are upper-cased before comparison. -/
def filterMatchMethod (incl excl : List (List Nat)) (m : List Nat) : Bool :=
  let mu := asciiUpper m
  if incl.length > 0 && !(incl.any fun x => asciiUpper x = mu) then false
  else !(excl.any fun x => asciiUpper x = mu)

/-! ## Claim theorems -/

/-- In every branch of the heuristic, `isText` is the negation of
`isBinary`. -/
theorem detect_isText (data : List Nat) (opts : Options) :
    (detectByHeuristic data opts).isText =
      !(detectByHeuristic data opts).isBinary := by
  simp only [detectByHeuristic]
  split_ifs <;> rfl

/-- C6.  Heuristic classification: with the default options
(`CheckBytes = 512`, `HighBitThreshold = 0.30`), `detectByHeuristic`
applies, over the first `min(len, 512)` bytes, exactly the rules in the
claimed order — empty input: text 0.50; null ratio > 1%: binary 0.85;
control ratio > 5%: binary 0.80; high-bit ratio > 0.30: text 0.70 if
valid UTF-8 else binary 0.75; looks-like-JSON: text 0.75; printable
ratio > 0.85: text 0.70; otherwise binary 0.50 — and `isText` is
always the negation of `isBinary`. -/
theorem heuristic_rule_order (data : List Nat) :
    verdictOf (detectByHeuristic data DefaultOptions) =
        specHeuristicVerdict data ∧
      (detectByHeuristic data DefaultOptions).isText =
        !(detectByHeuristic data DefaultOptions).isBinary :=
  ⟨detect_refines_spec data, detect_isText data DefaultOptions⟩

/-- C7 counterexample.  `E0 80 80` is the 3-byte overlong encoding of
U+0000, yet `isValidUTF8` accepts it: the claim that every overlong
encoding is rejected is false (the source checks overlong leads only
for 2-byte sequences). -/
theorem utf8_overlong_accepted : isValidUTF8 [0xE0, 0x80, 0x80] = true := by
  decide

/-- C7 (amended).  `isValidUTF8` accepts a byte string exactly when it
parses as a sequence of: ASCII bytes; 2-byte sequences with lead
`0xC2..0xDF`; 3-byte sequences with lead `0xE0..0xEF`; 4-byte sequences
with lead `0xF0..0xF4`; each with continuation bytes in `0x80..0xBF`.
Equivalently, it rejects exactly: invalid start bytes, 2-byte overlong
leads (`0xC0`/`0xC1`), 4-byte leads above `0xF4`, bad continuation
bytes, and truncated sequences — but it accepts 3- and 4-byte overlong
encodings and surrogate encodings. -/
theorem utf8_validation_characterization (l : List Nat)
    (h : ∀ b ∈ l, b < 256) : isValidUTF8 l = true ↔ AcceptedUTF8 l :=
  ⟨accepted_of_utf8Check l.length l le_rfl h, utf8Check_of_accepted l h⟩

/-- Witness for C7 at the concrete byte string `C3 A9` (`é`). -/
theorem utf8_validation_characterization_witness :
    isValidUTF8 [0xC3, 0xA9] = true ↔ AcceptedUTF8 [0xC3, 0xA9] :=
  utf8_validation_characterization [0xC3, 0xA9] (by decide)

/-- Filling an unstopped wrapper that still has room for `n` records
enqueues all of them (no drops, no errors). -/
theorem asyncStoreN_fill : ∀ (n : Nat) (s : AsyncState),
    s.stopped = false → s.queue.length + n ≤ s.queueSize →
    asyncStoreN n s = { s with queue := s.queue ++ List.replicate n 0 } := by
  intro n
  induction n with
  | zero => intro s _ _; simp [asyncStoreN]
  | succ n ih =>
    intro s hstop hroom
    rw [asyncStoreN, asyncStore, if_neg (by simp [hstop]),
      if_pos (by omega)]
    rw [ih _ (by simp [hstop]) (by simp; omega)]
    simp [List.replicate_succ]

/-- Store sequences compose. -/
theorem asyncStoreN_add : ∀ (a b : Nat) (s : AsyncState),
    asyncStoreN (a + b) s = asyncStoreN b (asyncStoreN a s) := by
  intro a
  induction a with
  | zero => intro b s; simp [asyncStoreN]
  | succ a ih =>
    intro b s
    rw [show a + 1 + b = (a + b) + 1 by omega]
    rw [asyncStoreN, asyncStoreN, ih]

/-- C4.  Backpressure by drop: a `Store` on an unstopped wrapper whose
bounded queue is full leaves the queue unchanged, increments the
store-error counter exactly once and returns `nil` (the non-blocking
`select` takes the `default` branch); consequently, with queue size `Q`
and no consumer, `Q` stores fill the queue with no error and the
`(Q+1)`-th store increments the error counter to exactly 1. -/
theorem backpressure_drop :
    (∀ (s : AsyncState) (r : Nat), s.stopped = false →
        s.queue.length = s.queueSize →
        asyncStore s r = ({ s with storeErrors := s.storeErrors + 1 }, none)) ∧
    (∀ Q : Nat,
        (asyncStoreN Q (initAsyncState Q)).storeErrors = 0 ∧
        (asyncStoreN Q (initAsyncState Q)).queue.length = Q ∧
        (asyncStoreN (Q + 1) (initAsyncState Q)).storeErrors = 1) := by
  constructor
  · intro s r hstop hfull
    rw [asyncStore, if_neg (by simp [hstop]), if_neg (by omega)]
  · intro Q
    have hfill := asyncStoreN_fill Q (initAsyncState Q) rfl
      (by simp [initAsyncState])
    rw [asyncStoreN_add Q 1]
    rw [hfill]
    refine ⟨rfl, by simp [initAsyncState], ?_⟩
    rw [asyncStoreN, asyncStoreN, asyncStore,
      if_neg (by simp [initAsyncState]), if_neg (by simp [initAsyncState])]
    simp [initAsyncState]

/-- Witness for C4 at queue size 2: the first two stores succeed, the
third is dropped with one error count. -/
theorem backpressure_drop_witness :
    asyncStore
        { queue := [0, 0], queueSize := 2, stopped := false
          stopChanClosed := false, storeErrors := 0 } 5 =
      ({ queue := [0, 0], queueSize := 2, stopped := false
         stopChanClosed := false, storeErrors := 1 }, none) ∧
    (asyncStoreN 3 (initAsyncState 2)).storeErrors = 1 := by
  constructor
  · exact backpressure_drop.1 _ 5 (by decide) (by decide)
  · exact (backpressure_drop.2 2).2.2

/-- C3 counterexample.  After `Close()`, `Store` returns `nil` rather
than a "closed" error (the record is silently discarded), and a second
`Close()` reaches `close(stopChan)` on an already-closed channel, which
panics — so `Close` is not idempotent. -/
theorem async_close_counterexample :
    asyncClose (initAsyncState 8) =
        some { queue := [], queueSize := 8, stopped := true
               stopChanClosed := true, storeErrors := 0 } ∧
      asyncStore
          { queue := [], queueSize := 8, stopped := true
            stopChanClosed := true, storeErrors := 0 } 7 =
        ({ queue := [], queueSize := 8, stopped := true
           stopChanClosed := true, storeErrors := 0 }, none) ∧
      asyncClose
          { queue := [], queueSize := 8, stopped := true
            stopChanClosed := true, storeErrors := 0 } = none := by
  decide

/-- C3 (amended).  After `Close()` has set `stopped`, every `Store`
returns `nil` without enqueuing the record — a silent drop, not a
"closed" error — and while a first `Close` on a live wrapper succeeds,
a second `Close` panics on `close(stopChan)` instead of returning
idempotently. -/
theorem async_closed_semantics :
    (∀ (s : AsyncState) (r : Nat), s.stopped = true →
        asyncStore s r = (s, none)) ∧
    (∀ s : AsyncState, s.stopChanClosed = false →
        asyncClose s =
          some { s with stopped := true, stopChanClosed := true }) ∧
    (∀ s : AsyncState, s.stopChanClosed = true → asyncClose s = none) := by
  refine ⟨fun s r h => ?_, fun s h => ?_, fun s h => ?_⟩
  · rw [asyncStore, if_pos h]
  · rw [asyncClose]
    simp [h]
  · rw [asyncClose]
    simp [h]

/-- Witness for C3 (amended) at concrete states. -/
theorem async_closed_semantics_witness :
    asyncStore
        { queue := [], queueSize := 4, stopped := true
          stopChanClosed := true, storeErrors := 0 } 1 =
      ({ queue := [], queueSize := 4, stopped := true
         stopChanClosed := true, storeErrors := 0 }, none) ∧
    asyncClose (initAsyncState 4) =
      some { queue := [], queueSize := 4, stopped := true
             stopChanClosed := true, storeErrors := 0 } ∧
    asyncClose
        { queue := [], queueSize := 4, stopped := true
          stopChanClosed := true, storeErrors := 0 } = none :=
  ⟨async_closed_semantics.1 _ 1 rfl, async_closed_semantics.2.1 _ rfl,
    async_closed_semantics.2.2 _ rfl⟩

/-- The source's explicit length-and-slice suffix test is exactly
list-suffix. -/
theorem dropCheck_iff (host s : List Char) :
    (decide (host.length ≥ s.length) &&
      decide (host.drop (host.length - s.length) = s)) = true ↔
      s <:+ host := by
  rw [Bool.and_eq_true, decide_eq_true_iff, decide_eq_true_iff]
  constructor
  · rintro ⟨-, hdrop⟩
    rw [← hdrop]
    exact List.drop_suffix _ _
  · rintro ⟨t, ht⟩
    have hlen : host.length = t.length + s.length := by
      rw [← ht]; simp
    constructor
    · omega
    · rw [show host.length - s.length = t.length by omega, ← ht,
        List.drop_left]

/-- C10.  The sampling store's `matchHost` strips the dot after the
star, so `*.X` matches every host that merely ends with `X` — including
`badexample.com` and the bare `example.com` — while the proxy engine's
`matchWildcard` keeps the dot and requires the host to end with `.X`. -/
theorem sampling_host_overmatch :
    (∀ (host s : List Char),
        backendMatchHost host ('*' :: '.' :: s) = true ↔ s <:+ host) ∧
    backendMatchHost "badexample.com".data "*.example.com".data = true ∧
    backendMatchHost "example.com".data "*.example.com".data = true ∧
    (∀ (host s : List Char),
        matchWildcard ('*' :: s) host = true ↔ s <:+ host) ∧
    matchWildcard "*.example.com".data "badexample.com".data = false ∧
    matchWildcard "*.example.com".data "example.com".data = false := by
  refine ⟨fun host s => ?_, by decide, by decide, fun host s => ?_,
    by decide, by decide⟩
  · rw [show backendMatchHost host ('*' :: '.' :: s) =
        (decide (host.length ≥ s.length) &&
          decide (host.drop (host.length - s.length) = s)) from rfl]
    exact dropCheck_iff host s
  · rw [show matchWildcard ('*' :: s) host =
        (decide (host.length ≥ s.length) &&
          decide (host.drop (host.length - s.length) = s)) from rfl]
    exact dropCheck_iff host s

/-- The `contains` loop finds `sub` exactly when it occurs as a
contiguous substring. -/
theorem goContains_iff : ∀ s sub : List Nat,
    goContains s sub = true ↔ ∃ l r, s = l ++ sub ++ r := by
  intro s
  induction s with
  | nil =>
    intro sub
    rw [goContains]
    constructor
    · intro h
      split_ifs at h with hp
      rcases List.isPrefixOf_iff_prefix.1 hp with ⟨t, ht⟩
      exact ⟨[], t, by simpa using ht.symm⟩
    · rintro ⟨l, r, hl⟩
      have h0 : l = [] ∧ sub = [] ∧ r = [] := by
        simpa [List.append_eq_nil] using hl.symm
      rcases h0 with ⟨-, h1, -⟩
      subst h1
      simp [List.isPrefixOf]
  | cons x s2 ih =>
    intro sub
    rw [goContains]
    split_ifs with hp
    · simp only [true_iff]
      rcases List.isPrefixOf_iff_prefix.1 hp with ⟨t, ht⟩
      exact ⟨[], t, by simpa using ht.symm⟩
    · rw [ih sub]
      constructor
      · rintro ⟨l, r, hl⟩
        exact ⟨x :: l, r, by simp [hl]⟩
      · rintro ⟨l, r, hl⟩
        match l with
        | [] =>
          exfalso
          apply hp
          apply List.isPrefixOf_iff_prefix.2
          exact ⟨r, by simpa using hl.symm⟩
        | y :: l2 =>
          simp only [List.cons_append, List.cons.injEq] at hl
          exact ⟨l2, r, hl.2⟩

/-- C9 counterexample.  A body `42` with content type `text/json` is
not JSON-parsed: `isJSONContentType` requires the content type to be at
least 16 bytes long, so `text/json` fails the test even though it
contains `json`, and the body's first byte is not `{`/`[` — the body is
retained as the string `42` even under a parser that would decode it.
Likewise a body of whitespace followed by `{}` is not parsed: the
source looks at the raw first byte, not the first non-whitespace
byte. -/
theorem json_parse_counterexample :
    parseBody (fun _ => some (JsonValue.num 42)) (bytes "42")
        (bytes "text/json") = CapturedBody.text (bytes "42") ∧
      parseBody (fun _ => some (JsonValue.obj [])) (bytes " \x7b\x7d")
        (bytes "text/plain") = CapturedBody.text (bytes " \x7b\x7d") :=
  ⟨rfl, rfl⟩

/-- C9 (amended).  JSON parsing is attempted exactly when the content
type is at least 16 bytes long and either starts with
`application/json` or contains `json` as a substring, or the body's
raw first byte is `{` or `[`; when attempted, a successful parse stores
the decoded value and a failed parse retains the body as a string; when
not attempted the body is retained as a string. -/
theorem json_parse_condition :
    (∀ body ct : List Nat,
        jsonParseAttempted body ct = true ↔
          ((ct.length ≥ 16 ∧ (ct.take 16 = bytes "application/json" ∨
              ∃ l r, ct = l ++ bytes "json" ++ r)) ∨
            (body ≠ [] ∧ (body.headI = 123 ∨ body.headI = 91)))) ∧
    (∀ (jp : List Nat → Option JsonValue) (body ct : List Nat),
        (jsonParseAttempted body ct = true →
          parseBody jp body ct =
            (match jp body with
              | some v => CapturedBody.parsed v
              | none => CapturedBody.text body)) ∧
        (jsonParseAttempted body ct = false →
          parseBody jp body ct = CapturedBody.text body)) := by
  constructor
  · intro body ct
    rw [jsonParseAttempted, isJSONContentType]
    simp only [Bool.or_eq_true, Bool.and_eq_true, decide_eq_true_iff,
      goContains_iff]
    constructor
    · rintro (⟨h16, hpre | hsub⟩ | ⟨hne, hb⟩)
      · exact .inl ⟨h16, .inl hpre⟩
      · exact .inl ⟨h16, .inr hsub⟩
      · refine .inr ⟨?_, by simpa using hb⟩
        intro hnil
        rw [hnil] at hne
        simp at hne
    · rintro (⟨h16, hpre | hsub⟩ | ⟨hne, hb⟩)
      · exact .inl ⟨h16, .inl hpre⟩
      · exact .inl ⟨h16, .inr hsub⟩
      · refine .inr ⟨?_, by simpa using hb⟩
        simpa [List.length_pos] using hne
  · intro jp body ct
    constructor
    · intro h
      rw [parseBody, if_pos h]
    · intro h
      rw [parseBody, if_neg (by simp [h])]

/-- Witness for C9 at a concrete body `[1]` with empty content type:
parsing is attempted because the first byte is `[`, and the parsed
value is stored. -/
theorem json_parse_condition_witness :
    parseBody (fun _ => some JsonValue.null) (bytes "[1]") (bytes "") =
      CapturedBody.parsed JsonValue.null :=
  (json_parse_condition.2 (fun _ => some JsonValue.null)
    (bytes "[1]") (bytes "")).1 (by decide)

/-- Lower-casing a byte never yields an ASCII uppercase letter. -/
theorem asciiLowerByte_not_upper (b : Nat) :
    ¬(65 ≤ asciiLowerByte b ∧ asciiLowerByte b ≤ 90) := by
  simp only [asciiLowerByte]
  split_ifs <;> omega

/-- Lower-casing is idempotent. -/
theorem asciiLowerByte_idem (b : Nat) :
    asciiLowerByte (asciiLowerByte b) = asciiLowerByte b := by
  simp only [asciiLowerByte]
  split_ifs <;> omega

/-- `normalizeHeader` is idempotent. -/
theorem normalizeHeader_idem (s : List Nat) :
    normalizeHeader (normalizeHeader s) = normalizeHeader s := by
  induction s with
  | nil => rfl
  | cons b t ih =>
    simp only [normalizeHeader, List.map_cons] at ih ⊢
    rw [asciiLowerByte_idem]
    simpa [normalizeHeader] using ih

/-- Every key of a `filterHeaders` result is the lower-cased form of an
incoming name and is distinct from every (lower-cased) filter entry. -/
theorem filterHeaders_mem : ∀ (fl : List (List Nat))
    (hs : List (List Nat × List (List Nat))) (k v : List Nat),
    (k, v) ∈ filterHeaders fl hs →
      (∃ k0, k = normalizeHeader k0) ∧ ∀ f ∈ fl, normalizeHeader f ≠ k := by
  intro fl hs
  induction hs with
  | nil => intro k v h; simp [filterHeaders] at h
  | cons kv t ih =>
    intro k v h
    rw [show filterHeaders fl (kv :: t) =
        (if fl.any (fun f => normalizeHeader f = normalizeHeader kv.1) then
          filterHeaders fl t
        else
          match kv.2 with
          | [] => filterHeaders fl t
          | v0 :: _ => (normalizeHeader kv.1, v0) :: filterHeaders fl t)
      from rfl] at h
    split_ifs at h with hskip
    · exact ih k v h
    · match hvs : kv.2 with
      | [] =>
        rw [hvs] at h
        exact ih k v h
      | v0 :: vrest =>
        rw [hvs] at h
        rcases List.mem_cons.1 h with heq | hmem
        · have hk : k = normalizeHeader kv.1 := (Prod.mk.injEq _ _ _ _ ▸ heq).1
          refine ⟨⟨kv.1, hk⟩, ?_⟩
          intro f hf hcontra
          apply hskip
          rw [List.any_eq_true]
          exact ⟨f, hf, by simp [hcontra, hk]⟩
        · exact ih k v hmem

/-- The request headers a `StartCapture` record carries. -/
theorem startCapture_headers (classify : List Nat → List Nat → Bool)
    (jsonParse : List Nat → Option JsonValue) (cfg : CConfig)
    (req : HttpRequest) :
    (StartCapture classify jsonParse cfg req).request.headers =
      if cfg.includeHeaders ∧ req.header ≠ [] then
        filterHeaders cfg.filterHeaders req.header
      else [] := by
  simp only [StartCapture]
  split_ifs <;> rfl

/-- The response headers a `FinishCapture` record carries. -/
theorem finishCapture_headers (classify : List Nat → List Nat → Bool)
    (jsonParse : List Nat → Option JsonValue) (cfg : CConfig)
    (rec0 : Record) (resp : HttpResponse) :
    (FinishCapture classify jsonParse cfg rec0 resp).response.headers =
      if cfg.includeHeaders ∧ resp.header ≠ [] then
        filterHeaders cfg.filterHeaders resp.header
      else [] := by
  simp only [FinishCapture]
  split_ifs <;> rfl

/-- C1.  Header redaction: under the default configuration, no header
key of a captured request or response is case-insensitively equal to
any entry of the default sensitive-header list (authorization, cookie,
set-cookie, x-api-key, x-auth-token, proxy-authorization); the whole
entry, value included, is dropped. -/
theorem header_redaction_default (classify : List Nat → List Nat → Bool)
    (jsonParse : List Nat → Option JsonValue) (req : HttpRequest)
    (rec0 : Record) (resp : HttpResponse) (k v s : List Nat)
    (hs : s ∈ DefaultConfig.filterHeaders)
    (hmem :
      (k, v) ∈ (StartCapture classify jsonParse DefaultConfig req).request.headers ∨
      (k, v) ∈
        (FinishCapture classify jsonParse DefaultConfig rec0 resp).response.headers) :
    normalizeHeader k ≠ normalizeHeader s := by
  have hk : (∃ k0, k = normalizeHeader k0) ∧
      ∀ f ∈ DefaultConfig.filterHeaders, normalizeHeader f ≠ k := by
    rcases hmem with hmem | hmem
    · rw [startCapture_headers] at hmem
      split_ifs at hmem with hc
      · exact filterHeaders_mem _ _ k v hmem
      · simp at hmem
    · rw [finishCapture_headers] at hmem
      split_ifs at hmem with hc
      · exact filterHeaders_mem _ _ k v hmem
      · simp at hmem
  rcases hk with ⟨⟨k0, hk0⟩, hne⟩
  intro hcontra
  apply hne s hs
  have hkk : normalizeHeader k = k := by rw [hk0, normalizeHeader_idem]
  rw [← hcontra, hkk]

/-- Witness for C1: a request carrying `Accept` and `Authorization`
headers; the surviving key `accept` differs case-insensitively from the
sensitive entry `authorization`. -/
theorem header_redaction_default_witness :
    normalizeHeader (bytes "accept") ≠ normalizeHeader (bytes "authorization") :=
  header_redaction_default (fun _ _ => false) (fun _ => none)
    { method := "GET"
      urlString := "https://api.example.com/x"
      urlPath := "/x"
      urlScheme := "https"
      host := "api.example.com"
      header := [(bytes "Accept", [bytes "application/json"]),
        (bytes "Authorization", [bytes "Bearer secret"])]
      query := []
      body := none
      contentLength := 0
      tls := false }
    {}
    { statusCode := 200
      status := "200 OK"
      header := []
      body := none
      contentLength := 0 }
    (bytes "accept") (bytes "application/json") (bytes "authorization")
    (by decide) (.inl (by decide))

/-- C2.  Binary skip: when `IncludeBody` and `SkipBinary` are set, a
body is present with a known positive content length that is accurate
and at most `MaxBodySize`, and the classifier reports binary for the
content-type hint and body bytes, then the captured body is exactly the
sentinel `"[binary content]"`, the `IsBinary` flag is set, and
`BodySize` (request) / `Size` (response) equals the number of body
bytes read, i.e. the content length. -/
theorem binary_skip :
    (∀ (classify : List Nat → List Nat → Bool)
        (jsonParse : List Nat → Option JsonValue)
        (cfg : CConfig) (req : HttpRequest) (bs : List Nat),
      cfg.includeBody = true → cfg.skipBinary = true →
      req.body = some bs → req.contentLength = (bs.length : Int) →
      0 < bs.length → (bs.length : Int) ≤ cfg.maxBodySize →
      classify (startContentType cfg req) bs = true →
      (StartCapture classify jsonParse cfg req).request.body =
          some (.text binarySentinel) ∧
        (StartCapture classify jsonParse cfg req).request.isBinary = true ∧
        (StartCapture classify jsonParse cfg req).request.bodySize =
          req.contentLength) ∧
    (∀ (classify : List Nat → List Nat → Bool)
        (jsonParse : List Nat → Option JsonValue)
        (cfg : CConfig) (rec0 : Record) (resp : HttpResponse) (bs : List Nat),
      cfg.includeBody = true → cfg.skipBinary = true →
      resp.body = some bs → resp.contentLength = (bs.length : Int) →
      0 < bs.length → (bs.length : Int) ≤ cfg.maxBodySize →
      classify (finishContentType cfg resp) bs = true →
      (FinishCapture classify jsonParse cfg rec0 resp).response.body =
          some (.text binarySentinel) ∧
        (FinishCapture classify jsonParse cfg rec0 resp).response.isBinary =
          true ∧
        (FinishCapture classify jsonParse cfg rec0 resp).response.size =
          resp.contentLength) := by
  constructor
  · intro classify jsonParse cfg req bs hincl hskip hb hcl hpos hle hcls
    have hTake : bs.take cfg.maxBodySize.toNat = bs :=
      List.take_of_length_le (by omega)
    have hpos2 : req.contentLength > 0 := by omega
    have hle2 : req.contentLength ≤ cfg.maxBodySize := by omega
    refine ⟨?_, ?_, ?_⟩ <;>
      simp [StartCapture, hb, hTake, hincl, hskip, hcls, hpos2, hle2, hpos,
        hcl, hle]
  · intro classify jsonParse cfg rec0 resp bs hincl hskip hb hcl hpos hle hcls
    have hTake : bs.take cfg.maxBodySize.toNat = bs :=
      List.take_of_length_le (by omega)
    have hle2 : resp.contentLength ≤ cfg.maxBodySize := by omega
    refine ⟨?_, ?_, ?_⟩ <;>
      simp [FinishCapture, hb, hTake, hincl, hskip, hcls, hle2, hpos, hcl,
        hle]

/-- Witness for C2: a 3-byte body with accurate content length under
the default configuration and an always-binary classifier. -/
theorem binary_skip_witness :
    (StartCapture (fun _ _ => true) (fun _ => none) DefaultConfig
        { method := "POST"
          urlString := "https://api.example.com/upload"
          urlPath := "/upload"
          urlScheme := "https"
          host := "api.example.com"
          header := []
          query := []
          body := some [137, 80, 78]
          contentLength := 3
          tls := false }).request.body = some (.text binarySentinel) ∧
      (StartCapture (fun _ _ => true) (fun _ => none) DefaultConfig
        { method := "POST"
          urlString := "https://api.example.com/upload"
          urlPath := "/upload"
          urlScheme := "https"
          host := "api.example.com"
          header := []
          query := []
          body := some [137, 80, 78]
          contentLength := 3
          tls := false }).request.isBinary = true ∧
      (StartCapture (fun _ _ => true) (fun _ => none) DefaultConfig
        { method := "POST"
          urlString := "https://api.example.com/upload"
          urlPath := "/upload"
          urlScheme := "https"
          host := "api.example.com"
          header := []
          query := []
          body := some [137, 80, 78]
          contentLength := 3
          tls := false }).request.bodySize = 3 :=
  binary_skip.1 (fun _ _ => true) (fun _ => none) DefaultConfig _ [137, 80, 78]
    rfl rfl rfl (by decide) (by decide) (by decide) rfl

/-- C5 counterexample.  A GET for `http://example.com` (no trailing
slash) reaches the capturer with an empty URL path, and `StartCapture`
copies it verbatim: the resulting record has an empty `path`, so the
claim that host, path and method are never empty fails. -/
theorem capture_empty_path_counterexample :
    (StartCapture (fun _ _ => false) (fun _ => none) DefaultConfig
        { method := "GET"
          urlString := "http://example.com"
          urlPath := ""
          urlScheme := "http"
          host := "example.com"
          header := []
          query := []
          body := none
          contentLength := 0
          tls := false }).request.path = "" := rfl

/-- C5 (amended).  `StartCapture` copies the request's method, host and
URL path verbatim into the record (hence they are non-empty exactly
when the incoming request's are — an empty URL path yields an empty
recorded path), and every header key of a captured request or response
contains no ASCII uppercase byte (keys are the ASCII-lowercased
original names). -/
theorem record_fields_and_lowercase_keys :
    (∀ (classify : List Nat → List Nat → Bool)
        (jsonParse : List Nat → Option JsonValue)
        (cfg : CConfig) (req : HttpRequest),
      (StartCapture classify jsonParse cfg req).request.method = req.method ∧
      (StartCapture classify jsonParse cfg req).request.host = req.host ∧
      (StartCapture classify jsonParse cfg req).request.path = req.urlPath) ∧
    (∀ (classify : List Nat → List Nat → Bool)
        (jsonParse : List Nat → Option JsonValue)
        (cfg : CConfig) (req : HttpRequest) (k v : List Nat) (b : Nat),
      (k, v) ∈ (StartCapture classify jsonParse cfg req).request.headers →
      b ∈ k → ¬(65 ≤ b ∧ b ≤ 90)) ∧
    (∀ (classify : List Nat → List Nat → Bool)
        (jsonParse : List Nat → Option JsonValue)
        (cfg : CConfig) (rec0 : Record) (resp : HttpResponse)
        (k v : List Nat) (b : Nat),
      (k, v) ∈
          (FinishCapture classify jsonParse cfg rec0 resp).response.headers →
      b ∈ k → ¬(65 ≤ b ∧ b ≤ 90)) := by
  refine ⟨fun classify jsonParse cfg req => ?_,
    fun classify jsonParse cfg req k v b hmem hb => ?_,
    fun classify jsonParse cfg rec0 resp k v b hmem hb => ?_⟩
  · simp only [StartCapture]
    split_ifs <;> exact ⟨rfl, rfl, rfl⟩
  · rw [startCapture_headers] at hmem
    split_ifs at hmem with hc
    · rcases (filterHeaders_mem _ _ k v hmem).1 with ⟨k0, hk0⟩
      rw [hk0] at hb
      rcases List.mem_map.1 hb with ⟨b0, -, hb0⟩
      rw [← hb0]
      exact asciiLowerByte_not_upper b0
    · simp at hmem
  · rw [finishCapture_headers] at hmem
    split_ifs at hmem with hc
    · rcases (filterHeaders_mem _ _ k v hmem).1 with ⟨k0, hk0⟩
      rw [hk0] at hb
      rcases List.mem_map.1 hb with ⟨b0, -, hb0⟩
      rw [← hb0]
      exact asciiLowerByte_not_upper b0
    · simp at hmem

/-- Witness for C5 (amended): the lowercased `content-type` key of a
captured response carries no uppercase byte; in particular its first
byte `c` (0x63) is not in `A..Z`. -/
theorem record_fields_and_lowercase_keys_witness :
    ¬(65 ≤ 99 ∧ 99 ≤ 90) :=
  record_fields_and_lowercase_keys.2.2 (fun _ _ => false) (fun _ => none)
    DefaultConfig {}
    { statusCode := 200
      status := "200 OK"
      header := [(bytes "Content-Type", [bytes "text/plain"])]
      body := none
      contentLength := 0 }
    (bytes "content-type") (bytes "text/plain") 99
    (by decide) (by decide)

/-- Unrolling the string-builder fold of `wildcardToRegexp`. -/
theorem wildcard_foldl (p : List Char) : ∀ acc : List Char,
    p.foldl (fun a c => a ++ wildcardEscape c) acc =
      acc ++ p.flatMap wildcardEscape := by
  induction p with
  | nil => intro acc; simp
  | cons c t ih =>
    intro acc
    simp only [List.foldl_cons, List.flatMap_cons, ih]
    rw [List.append_assoc]

/-- Upper-casing a byte is idempotent. -/
theorem asciiUpperByte_idem (b : Nat) :
    asciiUpperByte (asciiUpperByte b) = asciiUpperByte b := by
  simp only [asciiUpperByte]
  split_ifs <;> omega

/-- `asciiUpper` is idempotent. -/
theorem asciiUpper_idem (s : List Nat) :
    asciiUpper (asciiUpper s) = asciiUpper s := by
  induction s with
  | nil => rfl
  | cons b t ih =>
    simp only [asciiUpper, List.map_cons] at ih ⊢
    rw [asciiUpperByte_idem]
    simpa [asciiUpper] using ih

/-- C8.  Filter laws: (1) the wildcard compiler emits exactly the
anchored `^…$` regex described by the specification, with `?` as `.`,
`*` as `.*` and the other metacharacters escaped; (2) for arbitrary
include and exclude lists, the host/path matcher accepts exactly when
the include list is empty or some include pattern matches, and no
exclude pattern matches; in particular (3) everything is accepted with
no filters, (4) with both lists non-empty an input matching an include
and no exclude is accepted, (5) with a non-empty include list an input
matching no include is rejected whatever the excludes, and (6) any
exclude match rejects regardless of the includes; (7) method matching
is case-insensitive in the listed methods and in the probe: upper-casing
all of them leaves the result unchanged. -/
theorem filter_laws :
    (∀ p : List Char, wildcardToRegexp p = specWildcardRegexp p) ∧
    (∀ (incl excl : List (List WTok)) (host : List Char),
        filterMatchHost incl excl host =
          ((incl.isEmpty || incl.any fun q => rxMatch q host) &&
            !(excl.any fun q => rxMatch q host))) ∧
    (∀ host : List Char, filterMatchHost [] [] host = true) ∧
    (∀ (incl excl : List (List WTok)) (host : List Char) (q : List WTok),
        q ∈ incl → rxMatch q host = true →
        (∀ r ∈ excl, rxMatch r host = false) →
        filterMatchHost incl excl host = true) ∧
    (∀ (incl excl : List (List WTok)) (host : List Char), incl ≠ [] →
        (∀ q ∈ incl, rxMatch q host = false) →
        filterMatchHost incl excl host = false) ∧
    (∀ (incl excl : List (List WTok)) (host : List Char) (q : List WTok),
        q ∈ excl → rxMatch q host = true →
        filterMatchHost incl excl host = false) ∧
    (∀ (incl excl : List (List Nat)) (m : List Nat),
        filterMatchMethod (incl.map asciiUpper) (excl.map asciiUpper)
            (asciiUpper m) = filterMatchMethod incl excl m) := by
  have hchar : ∀ (incl excl : List (List WTok)) (host : List Char),
      filterMatchHost incl excl host =
        ((incl.isEmpty || incl.any fun q => rxMatch q host) &&
          !(excl.any fun q => rxMatch q host)) := by
    intro incl excl host
    match incl with
    | [] =>
      rw [filterMatchHost]
      simp
    | a :: t =>
      rw [filterMatchHost]
      cases h : (a :: t).any fun q => rxMatch q host
      · rw [if_pos (by simp [h])]
        simp [h]
      · rw [if_neg (by simp [h])]
        simp [h]
  refine ⟨fun p => ?_, hchar, fun host => ?_,
    fun incl excl host q hq hm hex => ?_,
    fun incl excl host hne hnone => ?_,
    fun incl excl host q hq hm => ?_,
    fun incl excl m => ?_⟩
  · rw [wildcardToRegexp, specWildcardRegexp, wildcard_foldl]
    have hfn : (fun c : Char =>
        if c = '?' then ['.']
        else if c = '*' then ['.', '*']
        else if c ∈ regexMetaChars then [Char.ofNat 92, c]
        else [c]) = wildcardEscape := by
      funext c
      rw [wildcardEscape]
      by_cases h1 : c = '*'
      · subst h1; rfl
      · by_cases h2 : c = '?'
        · subst h2; rfl
        · simp only [if_neg h1, if_neg h2]
    rw [hfn, List.append_assoc]
  · rw [filterMatchHost]
    simp
  · rw [hchar]
    have hin : (incl.any fun q => rxMatch q host) = true :=
      List.any_eq_true.2 ⟨q, hq, hm⟩
    have hout : (excl.any fun q => rxMatch q host) = false := by
      rw [List.any_eq_false]
      intro r hr
      simp [hex r hr]
    simp [hin, hout]
  · rw [hchar]
    have hin : (incl.any fun q => rxMatch q host) = false := by
      rw [List.any_eq_false]
      intro q hq
      simp [hnone q hq]
    simp [hin, hne]
  · rw [hchar]
    have hany : (excl.any fun q => rxMatch q host) = true :=
      List.any_eq_true.2 ⟨q, hq, hm⟩
    simp [hany]
  · rw [filterMatchMethod, filterMatchMethod]
    simp only [List.any_map, List.length_map, Function.comp_def,
      asciiUpper_idem]

/-- Witness for C8 at the Go unit-test table ("include and exclude"):
with include `*.example.com` and exclude `internal.example.com`,
`api.example.com` is accepted and `internal.example.com` is rejected;
with excludes present, `api.other.com` matching no include is
rejected. -/
theorem filter_laws_witness :
    filterMatchHost [compileWildcard "*.example.com".data]
        [compileWildcard "internal.example.com".data]
        "api.example.com".data = true ∧
    filterMatchHost [compileWildcard "*.example.com".data]
        [compileWildcard "internal.example.com".data]
        "internal.example.com".data = false ∧
    filterMatchHost [compileWildcard "*.example.com".data]
        [compileWildcard "*.cdn.com".data]
        "api.other.com".data = false :=
  ⟨filter_laws.2.2.2.1 [compileWildcard "*.example.com".data]
      [compileWildcard "internal.example.com".data]
      "api.example.com".data (compileWildcard "*.example.com".data)
      (by simp) (by decide) (by decide),
    filter_laws.2.2.2.2.2.1 [compileWildcard "*.example.com".data]
      [compileWildcard "internal.example.com".data]
      "internal.example.com".data
      (compileWildcard "internal.example.com".data)
      (by simp) (by decide),
    filter_laws.2.2.2.2.1 [compileWildcard "*.example.com".data]
      [compileWildcard "*.cdn.com".data]
      "api.other.com".data (by simp) (by decide)⟩

/-- Witness for C10 at a concrete host: the general suffix
characterisation instantiated at `badexample.com` against
`*.example.com`. -/
theorem sampling_host_overmatch_witness :
    backendMatchHost "badexample.com".data
        ('*' :: '.' :: "example.com".data) = true ↔
      "example.com".data <:+ "badexample.com".data :=
  sampling_host_overmatch.1 "badexample.com".data "example.com".data

end Omniproxy
